import Mathlib

/-!
Verification of the pyhtmx GUI client core against its specification.

The Lean definitions below are shallow embeddings of the Python sources:

* `EventSender` embeds `src/event_sender.py` (pub/sub with bounded queues);
* `validate_position`, `fix_position`, `calculate_duration`,
  `split_utterance`, `generate_split_utterance` embed
  `src/pyhtmx_gui/utils.py`;
* `PageGroup` embeds the state and operations of
  `src/pyhtmx_gui/page_group.py` (positions are `Int`, mirroring Python
  integers; operations that raise a Python exception return `Except.error`
  and leave the state unchanged, since the source raises before mutating);
* `check_disconnected_iteration` embeds one sweep of the session-liveness
  loop `check_disconnected` in `src/pyhtmx_gui/app.py`;
* `Renderer.update` and `Renderer.update_attributes` embed the SSE
  publication path of `src/pyhtmx_gui/renderer.py`; the `HtmlTag` structure
  is a minimal model of the external pyhtmx element type (attribute merge,
  optional text content, serialisation), which this repository only calls;
* `GUIManager.deactivate_namespace` embeds `src/pyhtmx_gui/gui_manager.py`.

Python `list.insert` clamps an index beyond the end (it appends);
`listInsertAt` reproduces that.  Python dictionaries are embedded as
association lists with `alookup`/`dinsert`/`ddelete` preserving insertion
order, as `dict` does.  Durations are modelled in `ℚ` (exact arithmetic)
except for `calculate_duration`, which uses `ℝ` because the source applies
`math.exp`/`math.log`.
-/

/-- Lookup in an insertion-ordered association list (Python `dict.get`). -/
def alookup {α : Type} (k : String) : List (String × α) → Option α
  | [] => none
  | (k2, v) :: rest => if k2 = k then some v else alookup k rest

/-- Key assignment in an association list (Python `dict[k] = v`): replaces
the value in place if the key exists, appends otherwise. -/
def dinsert {α : Type} (k : String) (v : α) : List (String × α) → List (String × α)
  | [] => [(k, v)]
  | (k2, v2) :: rest => if k2 = k then (k, v) :: rest else (k2, v2) :: dinsert k v rest

/-- Key removal from an association list (Python `del d[k]`). -/
def ddelete {α : Type} (k : String) : List (String × α) → List (String × α)
  | [] => []
  | (k2, v2) :: rest => if k2 = k then ddelete k rest else (k2, v2) :: ddelete k rest

/-- Python `list.insert(i, x)` for a non-negative index: inserts before
position `i`, appending when `i` is past the end. -/
def listInsertAt {α : Type} : Nat → α → List α → List α
  | 0, x, xs => x :: xs
  | _ + 1, x, [] => [x]
  | n + 1, x, y :: ys => y :: listInsertAt n x ys

/-- Python `list.index(x)` (call sites guard membership). -/
def listIndexOf (x : String) : List String → Nat
  | [] => 0
  | y :: ys => if y = x then 0 else listIndexOf x ys + 1

/-! ## EventSender (`src/event_sender.py`) -/

/-- A subscriber queue: `queue.Queue(maxsize)` holding SSE messages. -/
structure SubQueue where
  maxsize : Nat
  items : List String
deriving DecidableEq, Repr

/-- State of `EventSender.__init__(max_size=10)`: bounded-queue fan-out state. -/
structure EventSender where
  max_size : Nat
  listeners : List SubQueue
deriving DecidableEq, Repr

/-- Value of `EventSender()` with the default `max_size` of 10 (the global sender). -/
def EventSender.init : EventSender := ⟨10, []⟩

/-- Embeds `EventSender.listen`: appends a fresh bounded queue to the listener
list and returns it. -/
def EventSender.listen (s : EventSender) : EventSender × SubQueue :=
  ({ s with listeners := s.listeners ++ [⟨s.max_size, []⟩] }, ⟨s.max_size, []⟩)

/-- Embeds `Queue.put_nowait`: `none` models the `Full` exception (raised when the
queue is bounded and at capacity), otherwise the message is appended. -/
def put_nowait (q : SubQueue) (msg : String) : Option SubQueue :=
  if 0 < q.maxsize ∧ q.maxsize ≤ q.items.length then none
  else some { q with items := q.items ++ [msg] }

/-- Body of `EventSender.send`: the source iterates `reversed(listeners)`
and removes the current listener on `Full`; since only the element just
visited is ever removed, each listener is visited exactly once and the
survivors keep their relative order, which this recursion reproduces. -/
def sendAux (msg : String) : List SubQueue → List SubQueue
  | [] => []
  | q :: qs =>
    match put_nowait q msg with
    | some q2 => q2 :: sendAux msg qs
    | none => sendAux msg qs

/-- Embeds `EventSender.send(msg)`: non-blocking offer to every listener, dropping
listeners whose queue is full. -/
def EventSender.send (s : EventSender) (msg : String) : EventSender :=
  { s with listeners := sendAux msg s.listeners }

lemma sendAux_eq_filterMap (msg : String) :
    ∀ qs : List SubQueue, sendAux msg qs = qs.filterMap (fun q => put_nowait q msg) := by
  intro qs
  induction qs with
  | nil => rfl
  | cons q qs ih =>
    simp only [sendAux, List.filterMap_cons]
    cases h : put_nowait q msg with
    | none => simpa [h] using ih
    | some q2 => simpa [h] using ih

/-- C6: `listen` returns a fresh bounded queue (capacity `max_size`,
10 for the default sender) appended to the subscriber list; `send`
keeps every subscriber with spare capacity, appending the message at the
tail of its queue with previous messages preserved, and removes exactly
the full subscribers, leaving relative order untouched. -/
theorem event_sender_listen_send_spec :
    (∀ s : EventSender,
      (EventSender.listen s).1.listeners = s.listeners ++ [⟨s.max_size, []⟩] ∧
      (EventSender.listen s).2 = ⟨s.max_size, []⟩) ∧
    EventSender.init.max_size = 10 ∧
    (∀ (s : EventSender) (msg : String),
      (EventSender.send s msg).listeners =
        s.listeners.filterMap (fun q =>
          if 0 < q.maxsize ∧ q.maxsize ≤ q.items.length then none
          else some ⟨q.maxsize, q.items ++ [msg]⟩)) := by
  refine ⟨fun s => ⟨rfl, rfl⟩, rfl, fun s msg => ?_⟩
  simpa [put_nowait] using sendAux_eq_filterMap msg s.listeners

/-! ## utils (`src/pyhtmx_gui/utils.py`) -/

/-- Embeds `validate_position(position, ub)`: true iff `0 <= position <= ub`. -/
def validate_position (position ub : Int) : Bool :=
  decide (0 ≤ position ∧ position ≤ ub)

/-- Embeds `fix_position(position, ub)`: `max(min(position, ub), 0)`. -/
def fix_position (position ub : Int) : Int :=
  max (min position ub) 0

/-- Embeds `calculate_duration(text)`: `2.0 * (1.0 - exp(log(0.75) * len(text) / 10))`. -/
noncomputable def calculate_duration (text : String) : ℝ :=
  2 * (1 - Real.exp (Real.log 0.75 * text.length / 10))

/-- The duration actually used by `StatusHandler.process_event`
(`duration = duration or calculate_duration(formatted_utterance)`):
a missing (`None`) or zero — i.e. falsy — duration field falls back to
`calculate_duration`. -/
noncomputable def effective_duration (duration : Option ℝ) (text : String) : ℝ :=
  match duration with
  | none => calculate_duration text
  | some d => if d = 0 then calculate_duration text else d

/-- The sentence-terminating characters `list('.:,;?!-')`. -/
def punctChars : List Char := ['.', ':', ',', ';', '?', '!', '-']

/-- Embeds `if last_char and last_char not in list('.:,;?!-'): s += '.'`
(the guard is false on the empty string, whose last character is falsy). -/
def pyAddPeriod (s : String) : String :=
  match s.toList.getLast? with
  | some c => if c ∈ punctChars then s else s ++ "."
  | none => s

/-- Worker for `pyWords`: accumulates the current word (reversed). -/
def pyWordsGo : List Char → List Char → List String
  | [], cur => if cur = [] then [] else [String.mk cur.reverse]
  | c :: cs, cur =>
    if c.isWhitespace then
      if cur = [] then pyWordsGo cs []
      else String.mk cur.reverse :: pyWordsGo cs []
    else pyWordsGo cs (c :: cur)

/-- Python `str.split()` with no argument: splits on runs of whitespace and
never yields empty words. -/
def pyWords (s : String) : List String := pyWordsGo s.toList []

/-- The accumulation loop of `split_utterance`: folds the words into
groups of at most `maxLen` characters, flushing the current `word_group`
(with a trailing space) whenever the next word would overflow.  Returns
the flushed groups and the final `word_group`. -/
def splitWords (maxLen : Nat) :
    List String → List String → String → Nat → List String × String
  | [], groups, wordGroup, _ => (groups, wordGroup)
  | w :: ws, groups, wordGroup, len =>
    let addLen := (if wordGroup = "" then 0 else 1) + w.length
    if len + addLen ≤ maxLen then
      splitWords maxLen ws groups
        ((if wordGroup = "" then wordGroup else wordGroup ++ " ") ++ w) (len + addLen)
    else
      splitWords maxLen ws (groups ++ [wordGroup ++ " "]) w w.length

/-- Embeds `split_utterance(utterance, max_length)`: short utterances become a
single terminated piece; long ones are split on whitespace into groups,
the last group being terminated like a short utterance.  Every emitted
piece carries a trailing space, exactly as in the source. -/
def split_utterance (utterance : String) (max_length : Option Nat) : List String :=
  if utterance = "" then []
  else
    match max_length with
    | none => [pyAddPeriod utterance ++ " "]
    | some m =>
      if utterance.length ≤ m then [pyAddPeriod utterance ++ " "]
      else
        let res := splitWords m (pyWords utterance) [] "" 0
        if res.2 = "" then res.1 else res.1 ++ [pyAddPeriod res.2 ++ " "]

/-- Embeds `generate_split_utterance(utterance, duration, max_length=60)`: pairs
each piece with the share `duration * len(piece) / utt_length` of the
total duration (durations in exact rational arithmetic). -/
def generate_split_utterance (utterance : String) (duration : ℚ)
    (max_length : Option Nat := some 60) : List (String × ℚ) :=
  let sentences := split_utterance utterance max_length
  let utt_length : ℚ := ((sentences.map String.length).sum : ℕ)
  let durations := sentences.map (fun x => duration * x.length / utt_length)
  sentences.zip durations

/-! ### Lemmas about utterance splitting -/

lemma string_pos_of_ne {s : String} (h : s ≠ "") : 0 < s.length := by
  cases s with
  | mk data =>
    cases data with
    | nil => exact absurd rfl h
    | cons c cs => simp [String.length]

lemma string_ne_of_pos {s : String} (h : 0 < s.length) : s ≠ "" := by
  intro he
  rw [he] at h
  exact absurd h (by decide)

lemma length_dot : (".").length = 1 := rfl

lemma length_space : (" ").length = 1 := rfl

lemma pyAddPeriod_length (s : String) : (pyAddPeriod s).length ≤ s.length + 1 := by
  unfold pyAddPeriod
  cases h : s.toList.getLast? with
  | none => exact Nat.le_succ _
  | some c =>
    by_cases hc : c ∈ punctChars
    · simp [hc]
    · simp [hc, String.length_append, length_dot]

lemma pyAddPeriod_length_ge (s : String) : s.length ≤ (pyAddPeriod s).length := by
  unfold pyAddPeriod
  cases h : s.toList.getLast? with
  | none => exact Nat.le_refl _
  | some c =>
    by_cases hc : c ∈ punctChars
    · simp [hc]
    · simp [hc, String.length_append, length_dot]

lemma pyWordsGo_ne : ∀ (cs cur : List Char), ∀ w ∈ pyWordsGo cs cur, w ≠ "" := by
  intro cs
  induction cs with
  | nil =>
    intro cur w hw
    by_cases hc : cur = []
    · simp [pyWordsGo, hc] at hw
    · simp only [pyWordsGo, if_neg hc, List.mem_singleton] at hw
      subst hw
      apply string_ne_of_pos
      simpa [String.length] using List.length_pos.mpr hc
  | cons c cs ih =>
    intro cur w hw
    by_cases hws : c.isWhitespace
    · by_cases hc : cur = []
      · simp only [pyWordsGo, hws, if_true, hc, if_pos rfl] at hw
        exact ih [] w hw
      · simp only [pyWordsGo, hws, if_true, if_neg hc, List.mem_cons] at hw
        rcases hw with hw | hw
        · subst hw
          apply string_ne_of_pos
          simpa [String.length] using List.length_pos.mpr hc
        · exact ih [] w hw
    · simp only [pyWordsGo, hws, if_false] at hw
      exact ih (c :: cur) w hw

lemma splitWords_spec (m : Nat) :
    ∀ (ws groups : List String) (wordGroup : String) (len : Nat),
      (∀ w ∈ ws, w.length ≤ m) →
      len = wordGroup.length → wordGroup.length ≤ m →
      (∀ g ∈ groups, g.length ≤ m + 1) →
      (∀ g ∈ (splitWords m ws groups wordGroup len).1, g.length ≤ m + 1) ∧
        (splitWords m ws groups wordGroup len).2.length ≤ m := by
  intro ws
  induction ws with
  | nil =>
    intro groups wg len _ _ hwg hgroups
    exact ⟨hgroups, hwg⟩
  | cons w ws ih =>
    intro groups wg len hw hlen hwg hgroups
    simp only [splitWords]
    by_cases hc : len + ((if wg = "" then 0 else 1) + w.length) ≤ m
    · rw [if_pos hc]
      refine ih groups _ _ (fun x hx => hw x (List.mem_cons_of_mem _ hx)) ?_ ?_
        hgroups
      · by_cases he : wg = ""
        · simp [he, String.length_append, hlen]
        · simp only [he, if_neg, ite_false, String.length_append, length_space]
          omega
      · by_cases he : wg = ""
        · simpa [he, String.length_append, hlen] using hc
        · calc ((if wg = "" then wg else wg ++ " ") ++ w).length
              = len + ((if wg = "" then 0 else 1) + w.length) := by
                simp [he, String.length_append, hlen, length_space]
                omega
            _ ≤ m := hc
    · rw [if_neg hc]
      refine ih _ _ _ (fun x hx => hw x (List.mem_cons_of_mem _ hx)) rfl
        (hw w (List.mem_cons_self w ws)) ?_
      intro g hg
      rcases List.mem_append.mp hg with hg | hg
      · exact hgroups g hg
      · rw [List.mem_singleton.mp hg]
        calc (wg ++ " ").length = wg.length + 1 := by
              simp [String.length_append, length_space]
          _ ≤ m + 1 := Nat.add_le_add_right hwg 1

lemma splitWords_groups_pos (m : Nat) :
    ∀ (ws groups : List String) (wordGroup : String) (len : Nat),
      (∀ g ∈ groups, 0 < g.length) →
      ∀ g ∈ (splitWords m ws groups wordGroup len).1, 0 < g.length := by
  intro ws
  induction ws with
  | nil => intro groups wg len hgroups; exact hgroups
  | cons w ws ih =>
    intro groups wg len hgroups
    simp only [splitWords]
    by_cases hc : len + ((if wg = "" then 0 else 1) + w.length) ≤ m
    · rw [if_pos hc]
      exact ih groups _ _ hgroups
    · rw [if_neg hc]
      refine ih _ _ _ ?_
      intro g hg
      rcases List.mem_append.mp hg with hg | hg
      · exact hgroups g hg
      · rw [List.mem_singleton.mp hg]
        simp [String.length_append, length_space]

lemma splitWords_wordGroup_ne (m : Nat) :
    ∀ (ws groups : List String) (wordGroup : String) (len : Nat),
      (∀ w ∈ ws, w ≠ "") → (ws = [] → wordGroup ≠ "") →
      (splitWords m ws groups wordGroup len).2 ≠ "" := by
  intro ws
  induction ws with
  | nil => intro groups wg len _ hinit; exact hinit rfl
  | cons w ws ih =>
    intro groups wg len hne hinit
    have hwne : w ≠ "" := hne w (List.mem_cons_self w ws)
    simp only [splitWords]
    by_cases hc : len + ((if wg = "" then 0 else 1) + w.length) ≤ m
    · rw [if_pos hc]
      refine ih groups _ _ (fun x hx => hne x (List.mem_cons_of_mem _ hx)) ?_
      intro _
      apply string_ne_of_pos
      calc 0 < w.length := string_pos_of_ne hwne
        _ ≤ ((if wg = "" then wg else wg ++ " ") ++ w).length := by
            simp [String.length_append]
    · rw [if_neg hc]
      exact ih _ _ _ (fun x hx => hne x (List.mem_cons_of_mem _ hx)) fun _ => hwne

lemma split_utterance_pieces_pos (u : String) (m : Option Nat) :
    ∀ p ∈ split_utterance u m, 0 < p.length := by
  intro p hp
  have hterm : ∀ s : String, p = pyAddPeriod s ++ " " → 0 < p.length := by
    intro s hps
    rw [hps]
    simp [String.length_append, length_space]
  by_cases hu : u = ""
  · simp [split_utterance, hu] at hp
  · cases m with
    | none =>
      simp only [split_utterance, if_neg hu] at hp
      exact hterm u (List.mem_singleton.mp hp)
    | some ml =>
      simp only [split_utterance, if_neg hu] at hp
      by_cases hlen : u.length ≤ ml
      · rw [if_pos hlen] at hp
        exact hterm u (List.mem_singleton.mp hp)
      · rw [if_neg hlen] at hp
        by_cases hwg : (splitWords ml (pyWords u) [] "" 0).2 = ""
        · rw [if_pos hwg] at hp
          exact splitWords_groups_pos ml (pyWords u) [] "" 0 (by simp) p hp
        · rw [if_neg hwg] at hp
          rcases List.mem_append.mp hp with hp | hp
          · exact splitWords_groups_pos ml (pyWords u) [] "" 0 (by simp) p hp
          · exact hterm _ (List.mem_singleton.mp hp)

lemma split_utterance_sum_pos (u : String)
    (h : split_utterance u (some 60) ≠ []) :
    0 < ((split_utterance u (some 60)).map String.length).sum := by
  cases hsp : split_utterance u (some 60) with
  | nil => exact absurd hsp h
  | cons p rest =>
    have hp : 0 < p.length := by
      apply split_utterance_pieces_pos u (some 60)
      rw [hsp]
      exact List.mem_cons_self p rest
    simp only [List.map_cons, List.sum_cons]
    exact Nat.lt_of_lt_of_le hp (Nat.le_add_right _ _)

lemma zip_map_snd {α β : Type} (l : List α) (f : α → β) :
    ((l.zip (l.map f)).map Prod.snd) = l.map f := by
  induction l with
  | nil => rfl
  | cons x xs ih => simp [ih]

lemma proportional_sum (d : ℚ) (l : List String) (hl : l ≠ [])
    (hpos : ∀ p ∈ l, 0 < p.length) :
    (l.map (fun x =>
      d * x.length / (((l.map String.length).sum : ℕ) : ℚ))).sum = d := by
  have hT : (0 : ℚ) < (((l.map String.length).sum : ℕ) : ℚ) := by
    have : 0 < (l.map String.length).sum := by
      cases l with
      | nil => exact absurd rfl hl
      | cons p rest =>
        have := hpos p (List.mem_cons_self p rest)
        simp only [List.map_cons, List.sum_cons]
        exact Nat.lt_of_lt_of_le this (Nat.le_add_right _ _)
    exact_mod_cast this
  set T : ℚ := (((l.map String.length).sum : ℕ) : ℚ) with hTdef
  have hfun : (fun x : String => d * x.length / T)
      = fun x : String => (d / T) * (x.length : ℚ) := by
    funext x
    ring
  rw [hfun, List.sum_map_mul_left]
  have hcast : (l.map fun x : String => (x.length : ℚ)).sum = T := by
    rw [hTdef, Nat.cast_list_sum, List.map_map]
    rfl
  rw [hcast, div_mul_cancel₀ d (ne_of_gt hT)]

/-- C5 counterexample input: a 60-character formatted utterance
(capitalised, terminated by a period). -/
def cxUtterance : String := String.mk ('A' :: (List.replicate 58 'a' ++ ['.']))

/-- C5 counterexample: the pieces produced by `split_utterance` with
maximum length 60 are NOT all of length at most 60 — the source appends a
trailing space (and, for unterminated text, a period) after enforcing the
60-character budget, so a 60-character utterance yields a 61-character
piece. -/
theorem split_utterance_piece_exceeds_sixty :
    (cxUtterance == "") = false ∧ cxUtterance.length = 60 ∧
    ((split_utterance cxUtterance (some 60)).all
      fun p => decide (p.length ≤ 60)) = false := by
  refine ⟨by decide, by decide, by decide⟩

lemma pyWords_ne (u : String) : ∀ w ∈ pyWords u, w ≠ "" :=
  pyWordsGo_ne u.toList []

/-- C5 (amended): with the 60-character budget, every piece has length at
most 62 (60 characters of words, plus the optionally appended period and
the always-appended trailing space), provided every whitespace-separated
word of the utterance fits the budget; and the per-piece durations sum
exactly to the total duration whenever the split is non-empty (which the
last hypothesis guarantees). -/
theorem split_utterance_bound_and_duration_sum (u : String) (d : ℚ)
    (hne : u ≠ "")
    (hw : ∀ w ∈ pyWords u, w.length ≤ 60)
    (hnz : u.length ≤ 60 ∨ pyWords u ≠ []) :
    (∀ p ∈ split_utterance u (some 60), p.length ≤ 62) ∧
      ((generate_split_utterance u d (some 60)).map Prod.snd).sum = d := by
  have hpieces : split_utterance u (some 60) ≠ [] := by
    by_cases hlen : u.length ≤ 60
    · simp [split_utterance, if_neg hne, hlen]
    · have hwords : pyWords u ≠ [] := hnz.resolve_left hlen
      have hwg := splitWords_wordGroup_ne 60 (pyWords u) [] "" 0
        (pyWords_ne u) (fun h => absurd h hwords)
      simp only [split_utterance, if_neg hne, if_neg hlen, if_neg hwg]
      simp
  constructor
  · intro p hp
    simp only [split_utterance, if_neg hne] at hp
    by_cases hlen : u.length ≤ 60
    · rw [if_pos hlen] at hp
      rw [List.mem_singleton.mp hp]
      have h1 := pyAddPeriod_length u
      calc (pyAddPeriod u ++ " ").length = (pyAddPeriod u).length + 1 := by
            simp [String.length_append, length_space]
        _ ≤ 62 := by omega
    · rw [if_neg hlen] at hp
      obtain ⟨hgs, hwg⟩ := splitWords_spec 60 (pyWords u) [] "" 0 hw rfl
        (by simp [String.length]) (by simp)
      by_cases hempty : (splitWords 60 (pyWords u) [] "" 0).2 = ""
      · rw [if_pos hempty] at hp
        exact le_trans (hgs p hp) (by omega)
      · rw [if_neg hempty] at hp
        rcases List.mem_append.mp hp with hp | hp
        · exact le_trans (hgs p hp) (by omega)
        · rw [List.mem_singleton.mp hp]
          have h1 := pyAddPeriod_length (splitWords 60 (pyWords u) [] "" 0).2
          calc (pyAddPeriod (splitWords 60 (pyWords u) [] "" 0).2 ++ " ").length
              = (pyAddPeriod (splitWords 60 (pyWords u) [] "" 0).2).length + 1 := by
                simp [String.length_append, length_space]
            _ ≤ 62 := by omega
  · simp only [generate_split_utterance]
    rw [zip_map_snd]
    exact proportional_sum d _ hpieces (split_utterance_pieces_pos u (some 60))

theorem split_utterance_bound_and_duration_sum_witness :
    (∀ p ∈ split_utterance "Hello there." (some 60), p.length ≤ 62) ∧
      ((generate_split_utterance "Hello there." 3 (some 60)).map Prod.snd).sum = 3 :=
  split_utterance_bound_and_duration_sum "Hello there." 3 (by decide) (by decide)
    (Or.inl (by decide))

/-- C7: `calculate_duration` computes `2 * (1 - 0.75 ^ (len(text) / 10))`
seconds (the source writes the power as `exp(log(0.75) * len / 10)`), and
`StatusHandler.process_event` uses exactly this value when the incoming
event carries no duration field. -/
theorem calculate_duration_closed_form :
    ∀ text : String,
      calculate_duration text
        = 2 * (1 - (0.75 : ℝ) ^ ((text.length : ℝ) / 10)) ∧
      effective_duration none text = calculate_duration text := by
  intro text
  refine ⟨?_, rfl⟩
  rw [Real.rpow_def_of_pos (by norm_num : (0:ℝ) < 0.75)]
  unfold calculate_duration
  rw [mul_div_assoc]

/-- C10: `generate_split_utterance` is total: the empty utterance yields
the empty list (no division is evaluated, the duration map runs over an
empty list); every piece produced by `split_utterance` is non-empty (each
carries at least its trailing space), so whenever any piece exists the
total piece length used as the divisor is strictly positive and the
division `duration * len(piece) / utt_length` never divides by zero. -/
theorem generate_split_utterance_total :
    (∀ d : ℚ, generate_split_utterance "" d (some 60) = []) ∧
    (∀ u : String, ∀ p ∈ split_utterance u (some 60), p ≠ "") ∧
    (∀ u : String, split_utterance u (some 60) ≠ [] →
      0 < ((split_utterance u (some 60)).map String.length).sum) :=
  ⟨fun _ => rfl,
   fun u p hp => string_ne_of_pos (split_utterance_pieces_pos u (some 60) p hp),
   fun u h => split_utterance_sum_pos u h⟩

theorem generate_split_utterance_total_witness :
    0 < ((split_utterance "Hi" (some 60)).map String.length).sum :=
  generate_split_utterance_total.2.2 "Hi" (by decide)

/-! ## PageGroup (`src/pyhtmx_gui/page_group.py`) -/

/-- The manager built by `PageManager(page_id=..., page_src=uri, ...)`.
Only its identity matters for the claims; the renderer and session-data
constructor arguments do not influence the page map bookkeeping. -/
structure PageManager where
  page_id : String
  page_src : String
deriving DecidableEq, Repr

/-- The mutable state of a `PageGroup`: the ordered page-id sequence, the
page-id → `PageManager` map, and the active-index stack. -/
structure PageGroup where
  page_ids : List String
  pages : List (String × PageManager)
  active_indexes : List Int
deriving DecidableEq, Repr

/-- A freshly constructed (empty) page group. -/
def PageGroup.empty : PageGroup := ⟨[], [], []⟩

/-- The `num_pages` property. -/
def PageGroup.num_pages (s : PageGroup) : Int := (s.page_ids.length : Int)

/-- Embeds `PageGroup.insert_page`.  In the new-page branch with an out-of-range
position the source evaluates `self.fix_position(position)`, but
`PageGroup` defines no `fix_position` attribute (the module-level function
takes two arguments), so Python raises `AttributeError` before any
mutation; this is modelled as `Except.error`.  The repositioning branch
calls the module-level `fix_position` correctly. -/
def PageGroup.insert_page (s : PageGroup) (page_id uri : String)
    (position : Int) : Except String PageGroup :=
  if page_id ∉ s.page_ids then
    if validate_position position (s.num_pages - 1) then
      .ok { s with
        page_ids := listInsertAt position.toNat page_id s.page_ids,
        pages := dinsert page_id ⟨page_id, uri⟩ s.pages }
    else
      .error "AttributeError: PageGroup object has no attribute fix_position"
  else
    let index := listIndexOf page_id s.page_ids
    if (index : Int) ≠ position then
      let rest := s.page_ids.eraseIdx index
      let pos2 := if validate_position position ((rest.length : Int) - 1)
        then position else fix_position position ((rest.length : Int) - 1)
      .ok { s with
        page_ids := listInsertAt pos2.toNat page_id rest,
        pages := dinsert page_id ⟨page_id, uri⟩ s.pages }
    else
      .ok { s with pages := dinsert page_id ⟨page_id, uri⟩ s.pages }

/-- Embeds `PageGroup.get_page_id`: `None` on out-of-range positions. -/
def PageGroup.get_page_id (s : PageGroup) (position : Int) : Option String :=
  if validate_position position (s.num_pages - 1)
  then s.page_ids.get? position.toNat
  else none

/-- Embeds `PageGroup.remove_page(id)` for `id : int | str`; a position that does
not resolve (or an unknown page id, or `None in list` being false) only
logs. -/
def PageGroup.remove_page (s : PageGroup) (id : Int ⊕ String) : PageGroup :=
  let pid? : Option String :=
    match id with
    | .inl i => s.get_page_id i
    | .inr str => some str
  match pid? with
  | some pid =>
    if pid ∈ s.page_ids then
      { s with page_ids := s.page_ids.erase pid, pages := ddelete pid s.pages }
    else s
  | none => s

/-- Embeds `PageGroup.move_page(id, to_position)`.  With a string id the source
calls `get_page_id(id)`, whose `0 <= position` comparison between `int`
and `str` raises `TypeError` (modelled as `Except.error`); an invalid
integer position only logs. -/
def PageGroup.move_page (s : PageGroup) (id : Int ⊕ String)
    (to_position : Int) : Except String PageGroup :=
  match id with
  | .inr _ => .error "TypeError: not supported between instances of int and str"
  | .inl from_position =>
    if ¬ validate_position from_position (s.num_pages - 1) then .ok s
    else
      let to2 := if validate_position to_position s.num_pages then to_position
        else fix_position to_position s.num_pages
      let item := (s.page_ids.get? from_position.toNat).getD ""
      let rest := s.page_ids.eraseIdx from_position.toNat
      .ok { s with page_ids := listInsertAt to2.toNat item rest }

/-- Embeds `PageGroup.activate_page(id)`: pushes a valid index (or the index of a
known page id) onto the active stack; otherwise only logs. -/
def PageGroup.activate_page (s : PageGroup) (id : Int ⊕ String) : PageGroup :=
  match id with
  | .inl i =>
    if validate_position i (s.num_pages - 1) then
      { s with active_indexes := listInsertAt 0 i s.active_indexes }
    else s
  | .inr pid =>
    if pid ∈ s.page_ids then
      { s with active_indexes :=
          listInsertAt 0 ((listIndexOf pid s.page_ids : Nat) : Int) s.active_indexes }
    else s

/-- Embeds `PageGroup.deactivate_page`: pops the top of the active stack and
re-inserts it at position 1 (the previous active page resumes). -/
def PageGroup.deactivate_page (s : PageGroup) : PageGroup :=
  match s.active_indexes with
  | [] => s
  | i :: rest => { s with active_indexes := listInsertAt 1 i rest }

/-- The `PageGroup` operations named by the specification. -/
inductive PGOp where
  | insert (page_id uri : String) (position : Int)
  | remove (id : Int ⊕ String)
  | move (id : Int ⊕ String) (to_position : Int)
  | activate (id : Int ⊕ String)
  | deactivate

/-- Applying one operation; operations that raise in Python return
`Except.error`. -/
def PageGroup.apply (s : PageGroup) (op : PGOp) : Except String PageGroup :=
  match op with
  | .insert pid uri pos => s.insert_page pid uri pos
  | .remove id => .ok (s.remove_page id)
  | .move id toPos => s.move_page id toPos
  | .activate id => .ok (s.activate_page id)
  | .deactivate => .ok s.deactivate_page

/-- One step of an operation sequence: a raising operation leaves the
group unchanged (the source raises before mutating). -/
def PageGroup.step (s : PageGroup) (op : PGOp) : PageGroup :=
  match s.apply op with
  | .ok s2 => s2
  | .error _ => s

/-- Running a sequence of operations from the initially empty group. -/
def PageGroup.run (ops : List PGOp) : PageGroup :=
  ops.foldl PageGroup.step PageGroup.empty

/-- The data-model invariants claimed for `PageGroup`: every page id in
the sequence has a `PageManager` in the page map, and every entry of the
active-index stack is a valid index into the sequence. -/
def PageGroup.invariant (s : PageGroup) : Prop :=
  (∀ pid ∈ s.page_ids, (alookup pid s.pages).isSome = true) ∧
  (∀ i ∈ s.active_indexes, 0 ≤ i ∧ i < (s.page_ids.length : Int))

lemma validate_position_neg_ub (p : Int) : validate_position p (-1) = false := by
  simp only [validate_position, decide_eq_false_iff_not]
  omega

lemma pagegroup_empty_page_ids : PageGroup.empty.page_ids = [] := rfl

lemma pagegroup_empty_active : PageGroup.empty.active_indexes = [] := rfl

lemma pagegroup_step_empty (op : PGOp) :
    PageGroup.step PageGroup.empty op = PageGroup.empty := by
  have hval : ∀ p : Int,
      validate_position p (PageGroup.empty.num_pages - 1) = false := by
    intro p
    have h1 : PageGroup.empty.num_pages - 1 = (-1 : Int) := rfl
    rw [h1]
    exact validate_position_neg_ub p
  cases op with
  | insert pid uri pos =>
    simp [PageGroup.step, PageGroup.apply, PageGroup.insert_page,
      pagegroup_empty_page_ids, hval pos]
  | remove id =>
    cases id with
    | inl i =>
      simp [PageGroup.step, PageGroup.apply, PageGroup.remove_page,
        PageGroup.get_page_id, pagegroup_empty_page_ids, hval i]
    | inr str =>
      simp [PageGroup.step, PageGroup.apply, PageGroup.remove_page,
        pagegroup_empty_page_ids]
  | move id toPos =>
    cases id with
    | inl f =>
      simp [PageGroup.step, PageGroup.apply, PageGroup.move_page, hval f]
    | inr str =>
      simp [PageGroup.step, PageGroup.apply, PageGroup.move_page]
  | activate id =>
    cases id with
    | inl i =>
      simp [PageGroup.step, PageGroup.apply, PageGroup.activate_page, hval i]
    | inr pid =>
      simp [PageGroup.step, PageGroup.apply, PageGroup.activate_page,
        pagegroup_empty_page_ids]
  | deactivate =>
    simp [PageGroup.step, PageGroup.apply, PageGroup.deactivate_page,
      pagegroup_empty_active]

lemma pagegroup_run_eq_empty (ops : List PGOp) :
    PageGroup.run ops = PageGroup.empty := by
  have haux : ∀ (l : List PGOp) (s : PageGroup), s = PageGroup.empty →
      l.foldl PageGroup.step s = PageGroup.empty := by
    intro l
    induction l with
    | nil => intro s hs; simpa using hs
    | cons op rest ih =>
      intro s hs
      subst hs
      simp only [List.foldl_cons]
      exact ih _ (pagegroup_step_empty op)
  exact haux ops PageGroup.empty rfl

/-- C3: after any sequence of `insert_page` / `remove_page` / `move_page`
/ `activate_page` / `deactivate_page` operations starting from an empty
group, every page id in the sequence has a `PageManager` in the page map
and every active-stack entry is a valid index.  (The invariant holds
because no operation can ever populate an empty group: `insert_page`
always raises from the empty state — see the `insert_page` model — so all
reachable states are the empty state, for which both clauses are
trivial.) -/
theorem page_group_ops_preserve_invariants (ops : List PGOp) :
    PageGroup.invariant (PageGroup.run ops) := by
  rw [pagegroup_run_eq_empty]
  constructor
  · intro pid hpid
    simp [PageGroup.empty] at hpid
  · intro i hi
    simp [PageGroup.empty] at hi

theorem page_group_ops_preserve_invariants_witness :
    PageGroup.invariant (PageGroup.run [PGOp.deactivate]) :=
  page_group_ops_preserve_invariants [PGOp.deactivate]

/-- C2: evaluating `insert_page` at out-of-range positions.  For a page id
not yet in the group the source takes the branch
`position = self.fix_position(position)`, which raises `AttributeError`
(no such attribute on `PageGroup`); no clamping happens, nothing is
inserted and no `PageManager` is recorded.  This holds for any insert into
the empty group — even position 0 fails `validate_position(0, -1)` — and
for out-of-range inserts into non-empty groups. -/
theorem insert_page_out_of_range_raises :
    PageGroup.insert_page PageGroup.empty "home" "home.py" 2
      = Except.error "AttributeError: PageGroup object has no attribute fix_position" ∧
    PageGroup.insert_page PageGroup.empty "home" "home.py" 0
      = Except.error "AttributeError: PageGroup object has no attribute fix_position" ∧
    PageGroup.insert_page
      ⟨["a"], [("a", ⟨"a", "a.py"⟩)], []⟩ "b" "b.py" 5
      = Except.error "AttributeError: PageGroup object has no attribute fix_position" := by
  exact ⟨rfl, rfl, rfl⟩

/-! ## GUIManager (`src/pyhtmx_gui/gui_manager.py`) -/

/-- Embeds `GUIManager.deactivate_namespace`: pops the front namespace and
re-inserts it at position 1. -/
def GUIManager.deactivate_namespace (namespaces : List String) : List String :=
  match namespaces with
  | [] => []
  | n :: rest => listInsertAt 1 n rest

/-- C8: `deactivate_page` on an active stack `[i0, i1, i2, ...]` yields
`[i1, i0, i2, ...]` and leaves an empty stack unchanged; likewise
`deactivate_namespace` moves the front namespace to position 1 with the
other namespaces keeping their relative order. -/
theorem deactivate_rotation_spec :
    (∀ (ids : List String) (pages : List (String × PageManager)) (i0 i1 : Int)
        (rest : List Int),
      (PageGroup.deactivate_page ⟨ids, pages, i0 :: i1 :: rest⟩).active_indexes
        = i1 :: i0 :: rest) ∧
    (∀ (ids : List String) (pages : List (String × PageManager)),
      PageGroup.deactivate_page ⟨ids, pages, []⟩ = ⟨ids, pages, []⟩) ∧
    (∀ (n0 n1 : String) (rest : List String),
      GUIManager.deactivate_namespace (n0 :: n1 :: rest) = n1 :: n0 :: rest) :=
  ⟨fun _ _ _ _ _ => rfl, fun _ _ => rfl, fun _ _ _ => rfl⟩

/-! ## Session liveness sweeper (`src/pyhtmx_gui/app.py`) -/

/-- One iteration of the `check_disconnected` loop body: collect every
session whose time since the last ping exceeds
`ping_period + 3 * wait_time` (calling `deregister` on each — the first
component), then delete exactly those ids from the session map. -/
def check_disconnected_iteration (now ping_period wait_time : ℚ)
    (sessions : List (String × ℚ)) : List String × List (String × ℚ) :=
  let disconnected := (sessions.filter
    (fun kv => decide (now - kv.2 > ping_period + 3 * wait_time))).map Prod.fst
  (disconnected, sessions.filter (fun kv => decide (kv.1 ∉ disconnected)))

/-- C4 counterexample: with `ping_period = 10` and `check_wait = 5`, a
session silent for 21 seconds exceeds `ping_period + 2·check_wait = 20`,
yet the sweep deregisters nothing and keeps the session: the source uses
the grace factor 3 (`ping_period + 3 * wait_time = 25`). -/
theorem sweep_ignores_two_check_wait :
    ((21 : ℚ) - 0 > 10 + 2 * 5) ∧
    check_disconnected_iteration 21 10 5 [("A", 0)] = ([], [("A", 0)]) := by
  constructor
  · norm_num
  · simp only [check_disconnected_iteration]
    norm_num [List.filter_cons, List.filter_nil]

/-- C4 (amended): a session whose time since its last ping exceeds
`ping_period + 3·check_wait` at the moment the sweeper wakes is
deregistered by that single sweep iteration and removed from the session
map. -/
theorem sweep_evicts_after_three_check_wait
    (now ping_period wait_time : ℚ) (sessions : List (String × ℚ))
    (sid : String) (t : ℚ)
    (hmem : (sid, t) ∈ sessions)
    (hold : now - t > ping_period + 3 * wait_time) :
    sid ∈ (check_disconnected_iteration now ping_period wait_time sessions).1 ∧
    sid ∉ ((check_disconnected_iteration now ping_period wait_time
      sessions).2.map Prod.fst) := by
  simp only [check_disconnected_iteration]
  have hdis : sid ∈ (sessions.filter
      (fun kv => decide (now - kv.2 > ping_period + 3 * wait_time))).map Prod.fst := by
    simp only [List.mem_map]
    refine ⟨(sid, t), ?_, rfl⟩
    simp only [List.mem_filter, decide_eq_true_eq]
    exact ⟨hmem, hold⟩
  refine ⟨hdis, ?_⟩
  intro hcon
  simp only [List.mem_map, List.mem_filter, decide_eq_true_eq] at hcon
  obtain ⟨kv, ⟨_, hnotin⟩, hfst⟩ := hcon
  rw [hfst] at hnotin
  exact hnotin ⟨(sid, t), ⟨hmem, hold⟩, rfl⟩

theorem sweep_evicts_after_three_check_wait_witness :
    "A" ∈ (check_disconnected_iteration 26 10 5 [("A", 0)]).1 ∧
    "A" ∉ ((check_disconnected_iteration 26 10 5 [("A", 0)]).2.map Prod.fst) :=
  sweep_evicts_after_three_check_wait 26 10 5 [("A", 0)] "A" 0
    (List.mem_singleton.mpr rfl) (by norm_num)

/-! ## Renderer (`src/pyhtmx_gui/renderer.py`) -/

/-- Embeds `data.replace('\n', '')`. -/
def stripNewlines (s : String) : String :=
  String.mk (s.toList.filter (fun c => c != '\n'))

/-- Minimal model of the external pyhtmx `HTMLTag`: a tag name, an
attribute dictionary and optional text content.  Only the operations the
renderer calls are modelled: attribute merge with optional text update
(`update_attributes`) and one-line serialisation (`to_string`, here
`render`). -/
structure HtmlTag where
  tag : String
  attributes : List (String × String)
  text : Option String
deriving DecidableEq, Repr

/-- pyhtmx `HTMLTag.update_attributes(text_content=..., attributes=...)`:
merges the attribute dictionary and replaces the text content when one is
given. -/
def HtmlTag.update_attributes (t : HtmlTag) (text_content : Option String)
    (attrs : List (String × String)) : HtmlTag :=
  { t with
    attributes := attrs.foldl (fun acc kv => dinsert kv.1 kv.2 acc) t.attributes,
    text := match text_content with | some s => some s | none => t.text }

/-- pyhtmx `HTMLTag.to_string()`: one-line serialisation. -/
def HtmlTag.render (t : HtmlTag) : String :=
  "<" ++ t.tag ++
    (t.attributes.foldl (fun acc kv => acc ++ " " ++ kv.1 ++ "=" ++ kv.2) "") ++
    ">" ++ (match t.text with | some s => s | none => "") ++ "</" ++ t.tag ++ ">"

/-- An `InteractionParameter`: a registered binding of a semantic parameter
name to one target element, under an assigned `<name>-<8hex>` id. -/
structure InteractionParameter where
  parameter_name : String
  parameter_id : String
  target : HtmlTag
deriving DecidableEq, Repr

/-- The part of `PageItemCollection` that `update_attributes` reads: the
parameter-name → binding-list dictionary. -/
structure PageItems where
  parameters : List (String × List InteractionParameter)
deriving DecidableEq, Repr

/-- The renderer-internal `PageGroup` (namespace plus route → items). -/
structure RPageGroup where
  group_namespace : String
  pages : List (String × PageItems)
deriving DecidableEq, Repr

/-- The renderer state read by `update_attributes` and `update`: the
client registry, the page stack (last entry = page last shown), the
route → namespace map and the namespace → page-group catalog. -/
structure RendererState where
  clients : List String
  page_stack : List String
  group_map : List (String × String)
  group_catalog : List (String × RPageGroup)
deriving DecidableEq, Repr

/-- Embeds `Renderer.update(data, event_id)`: returns the SSE messages handed to
the event sender (none when the client registry is empty or `data` is
`None`; otherwise exactly the one formatted frame).  The method reads but
never writes renderer state. -/
def Renderer.update (clients : List String) (data : Option String)
    (event_id : Option String) : List String :=
  if clients = [] ∨ data = none then []
  else
    match data with
    | none => []
    | some d =>
      let d2 := stripNewlines d
      let msg := "data: " ++ d2 ++ "\n\n"
      match event_id with
      | some e => ["event: " ++ e ++ "\n" ++ msg]
      | none => [msg]

/-- Write-back of the mutated binding list into the catalog (the source
mutates the aliased `InteractionParameter.target` elements in place). -/
def setCatalogParameters (cat : List (String × RPageGroup))
    (nspace route parameter : String) (l : List InteractionParameter) :
    List (String × RPageGroup) :=
  cat.map (fun kg =>
    if kg.1 = nspace then
      (kg.1, { kg.2 with pages := kg.2.pages.map (fun rp =>
        if rp.1 = route then
          (rp.1, { rp.2 with parameters := dinsert parameter l rp.2.parameters })
        else rp) })
    else kg)

/-- Embeds `Renderer.update_attributes(route, parameter, attribute)`: resolves
the namespace via the group map (default `"unknown"`), fetches the
registered binding list, and for each binding updates the target element
in memory and hands one fragment to `Renderer.update` — keyed by the
binding's parameter id, with the serialised element when the attribute
dict is non-empty, else the popped `inner_content` text (the source
parameter is named `attribute`, a reserved word here, hence `attrDict`).
Returns the new state and the published messages. -/
def Renderer.update_attributes (s : RendererState) (route parameter : String)
    (attrDict : List (String × String)) : RendererState × List String :=
  let nspace := (alookup route s.group_map).getD "unknown"
  match alookup nspace s.group_catalog with
  | none => (s, [])
  | some grp =>
    match (alookup route grp.pages).bind
        (fun pc => alookup parameter pc.parameters) with
    | none => (s, [])
    | some parameter_list =>
      if parameter_list = [] then (s, [])
      else
        let text_content := alookup "inner_content" attrDict
        let attrs := attrDict.filter (fun kv => kv.1 != "inner_content")
        let msgs := parameter_list.foldl (fun acc ip =>
          let component := ip.target.update_attributes text_content attrs
          let dat : Option String :=
            if attrDict = [] then text_content else some component.render
          acc ++ Renderer.update s.clients dat (some ip.parameter_id)) []
        let updated := parameter_list.map (fun ip =>
          { ip with target := ip.target.update_attributes text_content attrs })
        ({ s with group_catalog :=
            setCatalogParameters s.group_catalog nspace route parameter updated },
          msgs)

/-- C9: `Renderer.update` publishes nothing when the client registry is
empty or `data` is `None` (and changes no state — the model returns only
the handed-over messages), and otherwise hands exactly one message to the
event sender. -/
theorem renderer_update_gating :
    ∀ (clients : List String) (data : Option String) (event_id : Option String),
      ((clients = [] ∨ data = none) → Renderer.update clients data event_id = []) ∧
      (clients ≠ [] → data ≠ none →
        (Renderer.update clients data event_id).length = 1) := by
  intro clients data eid
  constructor
  · intro h
    simp only [Renderer.update]
    rw [if_pos h]
  · intro hc hd
    cases data with
    | none => exact absurd rfl hd
    | some d =>
      have hcond : ¬(clients = [] ∨ (some d : Option String) = none) := by
        rintro (h | h)
        · exact hc h
        · exact Option.noConfusion h
      simp only [Renderer.update]
      rw [if_neg hcond]
      cases eid <;> rfl

theorem renderer_update_gating_witness :
    (Renderer.update ["c1"] (some "x") none).length = 1 :=
  (renderer_update_gating ["c1"] (some "x") none).2
    (by decide) (by decide)

lemma renderer_update_some_length (clients : List String) (d : String)
    (eid : Option String) (hc : clients ≠ []) :
    (Renderer.update clients (some d) eid).length = 1 := by
  have hcond : ¬(clients = [] ∨ (some d : Option String) = none) := by
    rintro (h | h)
    · exact hc h
    · exact Option.noConfusion h
  simp only [Renderer.update]
  rw [if_neg hcond]
  cases eid <;> rfl

lemma foldl_append_length {α : Type} (f : α → List String)
    (h : ∀ a, (f a).length = 1) :
    ∀ (l : List α) (acc : List String),
      (l.foldl (fun acc2 a => acc2 ++ f a) acc).length = acc.length + l.length := by
  intro l
  induction l with
  | nil => intro acc; simp
  | cons a rest ih =>
    intro acc
    simp only [List.foldl_cons]
    rw [ih]
    simp only [List.length_append, h a, List.length_cons]
    omega

/-- Concrete target element for the C1 state. -/
def cxTag : HtmlTag := ⟨"span", [], none⟩

/-- Concrete renderer page group for C1: namespace `ns2`, one route `r2`
with one registered binding for parameter `p`. -/
def cxGroup : RPageGroup :=
  ⟨"ns2", [("r2", ⟨[("p", [⟨"p", "p-1a2b3c4d", cxTag⟩])]⟩)]⟩

/-- Concrete renderer state for C1: one client; the page stack ends in
`r1` (the last-shown route), while `r2` — mapped to namespace `ns2` — is a
background route with a registered binding. -/
def cxRenderer : RendererState :=
  ⟨["c1"], ["r2", "r1"], [("r2", "ns2"), ("r1", "ns1")], [("ns2", cxGroup)]⟩

/-- C1 counterexample: `update_attributes` addressed at the background
route `r2` (namespace `ns2`), while the last-shown route is `r1`,
nevertheless publishes an SSE fragment: the source contains no
last-shown gate on this path. -/
theorem update_attributes_publishes_for_background_route :
    ((Renderer.update_attributes cxRenderer "r2" "p"
        [("inner_content", "hi")]).2).length = 1 ∧
    alookup "r2" cxRenderer.group_map = some "ns2" ∧
    cxRenderer.page_stack.getLast? = some "r1" ∧
    ("r2" == "r1") = false :=
  ⟨rfl, rfl, rfl, rfl⟩

/-- C1 (amended): whenever the addressed route resolves to a catalogued
namespace with a non-empty registered binding list, the client registry is
non-empty and the attribute dict is non-empty, `update_attributes`
publishes exactly one fragment per registered binding — irrespective of
the page stack, i.e. also when the addressed route differs from the
last-shown route — and the binding targets are updated in memory. -/
theorem update_attributes_fragment_count
    (s : RendererState) (route parameter : String)
    (attrDict : List (String × String))
    (grp : RPageGroup) (parameter_list : List InteractionParameter)
    (hgrp : alookup ((alookup route s.group_map).getD "unknown")
      s.group_catalog = some grp)
    (hpl : (alookup route grp.pages).bind
      (fun pc => alookup parameter pc.parameters) = some parameter_list)
    (hne : parameter_list ≠ [])
    (hcl : s.clients ≠ [])
    (hattr : attrDict ≠ []) :
    ((Renderer.update_attributes s route parameter attrDict).2).length
      = parameter_list.length ∧
    (Renderer.update_attributes s route parameter attrDict).1.group_catalog
      = setCatalogParameters s.group_catalog
          ((alookup route s.group_map).getD "unknown") route parameter
          (parameter_list.map (fun ip =>
            { ip with target := (ip.target.update_attributes
                (alookup "inner_content" attrDict)
                (attrDict.filter (fun kv => kv.1 != "inner_content"))) })) := by
  constructor
  · simp only [Renderer.update_attributes, hgrp, hpl]
    rw [if_neg hne]
    have hlen := foldl_append_length
      (fun ip : InteractionParameter =>
        Renderer.update s.clients
          (if attrDict = [] then alookup "inner_content" attrDict
           else some ((ip.target.update_attributes
              (alookup "inner_content" attrDict)
              (attrDict.filter (fun kv => kv.1 != "inner_content"))).render))
          (some ip.parameter_id))
      (fun ip => by
        simp only [if_neg hattr]
        exact renderer_update_some_length s.clients _ _ hcl)
      parameter_list []
    simpa using hlen
  · simp only [Renderer.update_attributes, hgrp, hpl]
    rw [if_neg hne]

theorem update_attributes_fragment_count_witness :
    ((Renderer.update_attributes cxRenderer "r2" "p"
        [("inner_content", "hi")]).2).length
      = [(⟨"p", "p-1a2b3c4d", cxTag⟩ : InteractionParameter)].length :=
  (update_attributes_fragment_count cxRenderer "r2" "p" [("inner_content", "hi")]
    cxGroup [⟨"p", "p-1a2b3c4d", cxTag⟩] rfl rfl
    (by decide) (by decide) (by decide)).1
